import Mathlib

/-!
Verification development for the message-text annotation engine of this
repository (MessageTextRenderer, extractLinks and renderNode in
ts/components/conversation, plus the range-tree helpers they use).

Strings are modelled as lists of UTF-16 code units (List Char); JS
String.prototype.slice on in-bounds arguments is jsSlice below.

The functions insertRange, collapseRangeTree and groupContiguousSpoilers
are imported by the renderer from types/BodyRange, a file that is not part
of the sources here; they are modelled from the spec (sections 4.3 to 4.5),
as marked on each definition.  The external collaborators linkify
(linkify-it), the emoji regular expression, lodash sortBy,
SUPPORTED_PROTOCOLS and isLinkSneaky are modelled abstractly: the matcher
outputs become parameters, the two URL predicates become fields of the
render context, and sortBy is modelled by a stable insertion sort, which
is the documented behaviour of lodash sortBy.
-/

/-- Formatting styles of BodyRange.Style used by the renderer
(BOLD, ITALIC, SPOILER, STRIKETHROUGH, MONOSPACE). -/
inductive FmtStyle where
  | bold
  | italic
  | spoiler
  | strikethrough
  | monospace
deriving DecidableEq

/-- Kind-specific payload of a body range: formatting style, mention
(target conversation id and resolved display name), or link (matched URL). -/
inductive RangePayload where
  | formatting (style : FmtStyle)
  | mention (conversationID : Nat) (replacementText : List Char)
  | link (url : List Char)
deriving DecidableEq

/-- A caller-supplied annotation range over the message text, in UTF-16
code units.  spoilerId is absent on input and assigned during tree
construction for spoiler formatting ranges. -/
structure BodyRange where
  start : Nat
  length : Nat
  payload : RangePayload
  spoilerId : Option Nat
deriving DecidableEq

/-- True exactly when the range is a mention range (BodyRange.isMention). -/
def BodyRange.isMention (r : BodyRange) : Bool :=
  match r.payload with
  | RangePayload.mention _ _ => true
  | _ => false

/-- True exactly when the range is a formatting range with style SPOILER
(the test BodyRange.isFormatting(range) and range.style === SPOILER). -/
def BodyRange.isSpoilerFormatting (r : BodyRange) : Bool :=
  match r.payload with
  | RangePayload.formatting FmtStyle.spoiler => true
  | _ => false

/-- Url carried by a link range, if any. -/
def BodyRange.linkUrl (r : BodyRange) : Option (List Char) :=
  match r.payload with
  | RangePayload.link u => some u
  | _ => none

/-- A node of the range tree: a body range together with the ordered list
of child nodes nested inside its span. -/
inductive RangeNode where
  | mk (range : BodyRange) (ranges : List RangeNode)

/-- Range stored at a tree node. -/
def RangeNode.range : RangeNode → BodyRange
  | RangeNode.mk r _ => r

/-- Children of a tree node. -/
def RangeNode.ranges : RangeNode → List RangeNode
  | RangeNode.mk _ ch => ch

/-- A mention annotation inside a display node, with offsets relative to
the node's own text. -/
structure MentionEntry where
  start : Nat
  length : Nat
  conversationID : Nat
  replacementText : List Char
deriving DecidableEq

/-- Flattened display unit produced by collapsing the range tree.  Field
order: start, length, text, isBold, isItalic, isStrikethrough,
isMonospace, isKeywordHighlight, isSpoiler, spoilerId, spoilerChildren,
mentions, url. -/
inductive DisplayNode where
  | mk (start : Nat) (length : Nat) (text : List Char)
       (isBold : Bool) (isItalic : Bool) (isStrikethrough : Bool)
       (isMonospace : Bool) (isKeywordHighlight : Bool) (isSpoiler : Bool)
       (spoilerId : Option Nat)
       (spoilerChildren : Option (List DisplayNode))
       (mentions : List MentionEntry)
       (url : Option (List Char))

/-- Start offset of a display node. -/
def DisplayNode.start : DisplayNode → Nat
  | DisplayNode.mk s _ _ _ _ _ _ _ _ _ _ _ _ => s

/-- Length of a display node. -/
def DisplayNode.length : DisplayNode → Nat
  | DisplayNode.mk _ l _ _ _ _ _ _ _ _ _ _ _ => l

/-- Text slice carried by a display node. -/
def DisplayNode.text : DisplayNode → List Char
  | DisplayNode.mk _ _ t _ _ _ _ _ _ _ _ _ _ => t

/-- Bold flag. -/
def DisplayNode.isBold : DisplayNode → Bool
  | DisplayNode.mk _ _ _ b _ _ _ _ _ _ _ _ _ => b

/-- Italic flag. -/
def DisplayNode.isItalic : DisplayNode → Bool
  | DisplayNode.mk _ _ _ _ i _ _ _ _ _ _ _ _ => i

/-- Strikethrough flag. -/
def DisplayNode.isStrikethrough : DisplayNode → Bool
  | DisplayNode.mk _ _ _ _ _ st _ _ _ _ _ _ _ => st

/-- Monospace flag. -/
def DisplayNode.isMonospace : DisplayNode → Bool
  | DisplayNode.mk _ _ _ _ _ _ m _ _ _ _ _ _ => m

/-- Keyword-highlight flag (search results). -/
def DisplayNode.isKeywordHighlight : DisplayNode → Bool
  | DisplayNode.mk _ _ _ _ _ _ _ k _ _ _ _ _ => k

/-- Spoiler flag. -/
def DisplayNode.isSpoiler : DisplayNode → Bool
  | DisplayNode.mk _ _ _ _ _ _ _ _ sp _ _ _ _ => sp

/-- Spoiler group id. -/
def DisplayNode.spoilerId : DisplayNode → Option Nat
  | DisplayNode.mk _ _ _ _ _ _ _ _ _ sid _ _ _ => sid

/-- Nested display nodes of a spoiler node. -/
def DisplayNode.spoilerChildren : DisplayNode → Option (List DisplayNode)
  | DisplayNode.mk _ _ _ _ _ _ _ _ _ _ ch _ _ => ch

/-- Mention annotations of the node, relative to its own text. -/
def DisplayNode.mentions : DisplayNode → List MentionEntry
  | DisplayNode.mk _ _ _ _ _ _ _ _ _ _ _ ms _ => ms

/-- Url tagged on the node, if any. -/
def DisplayNode.url : DisplayNode → Option (List Char)
  | DisplayNode.mk _ _ _ _ _ _ _ _ _ _ _ _ u => u

/-- JS slice(a, b) on a list of code units (for 0 ≤ a ≤ b within bounds). -/
def jsSlice (l : List Char) (a b : Nat) : List Char :=
  (l.drop a).take (b - a)

/-- A candidate match produced by the external linkify matcher: character
index of the first code unit, index one past the last, and matched url. -/
structure LinkMatch where
  index : Nat
  lastIndex : Nat
  url : List Char
deriving DecidableEq

/-- Body range built from an accepted matcher candidate
(start = index, length = lastIndex - index, payload the matched url). -/
def linkMatchRange (m : LinkMatch) : BodyRange :=
  BodyRange.mk m.index (m.lastIndex - m.index) (RangePayload.link m.url) none

/-- The filter and projection of extractLinks: keep a candidate only when
its start index is inside the display text, its end offset does not
exceed the display text, and the display text reproduces the matched url
at those offsets; turn survivors into link body ranges.  The candidate
list stands for the output of linkify.match on the emoji-scrubbed
untruncated source text. -/
def extractLinks (messageText : List Char) (cands : List LinkMatch) :
    List BodyRange :=
  (cands.filter fun m =>
    decide (m.index < messageText.length) &&
    decide (m.lastIndex ≤ messageText.length) &&
    (jsSlice messageText m.index m.lastIndex == m.url)).map linkMatchRange

/-- Splice of one regex match: characters in positions a to b are replaced
by a run of spaces of the same length, everything else kept in place. -/
def spliceSpaces (t : List Char) (a b : Nat) : List Char :=
  t.take a ++ List.replicate (b - a) ' ' ++ t.drop b

/-- The emoji scrub performed by extractLinks before matching:
originalMessageText.replace(EMOJI_REGEXP, s => one space per code unit of
s).  The spans are the intervals matched by the emoji regular expression
(an external collaborator), processed left to right. -/
def replaceEmojiWithSpaces (t : List Char) (spans : List (Nat × Nat)) :
    List Char :=
  spans.foldl (fun acc s => spliceSpaces acc s.1 s.2) t

/-- Stable insertion of one range into a list already sorted by the
mention-last key: the new element goes before the first element whose key
is not smaller, so earlier input stays first among equal keys. -/
def sortMentionInsert (x : BodyRange) : List BodyRange → List BodyRange
  | [] => [x]
  | y :: ys =>
    if (if y.isMention then 1 else 0) < (if x.isMention then 1 else 0) then
      y :: sortMentionInsert x ys
    else
      x :: y :: ys

/-- Model of lodash sortBy(bodyRanges, range => isMention(range) ? 1 : 0):
a stable sort moving every mention range after every other range while
keeping the relative order inside each group.  lodash sortBy is
documented to be a stable sort; it is modelled by stable insertion. -/
def sortMentionsLast (l : List BodyRange) : List BodyRange :=
  l.foldr sortMentionInsert []

/-- Modelled from the spec: insertRange of types/BodyRange (section 4.3),
absent from the sources; only its caller is present.  Walk the forest
left to right; a range wholly before the current node is inserted in
front of it; a range wholly after it moves on; a range contained in the
current node's span recurses into its children; a range that fully
contains one or more consecutive nodes adopts them as children and takes
their place, provided the first node after the adopted run does not
partially overlap it; any partial, crossing overlap drops the new range,
leaving the forest unchanged. -/
def insertRange (r : BodyRange) : List RangeNode → List RangeNode
  | [] => [RangeNode.mk r []]
  | RangeNode.mk nr nch :: rest =>
    if r.start + r.length ≤ nr.start then
      RangeNode.mk r [] :: RangeNode.mk nr nch :: rest
    else if nr.start + nr.length ≤ r.start then
      RangeNode.mk nr nch :: insertRange r rest
    else if nr.start ≤ r.start && r.start + r.length ≤ nr.start + nr.length then
      RangeNode.mk nr (insertRange r nch) :: rest
    else if r.start ≤ nr.start && nr.start + nr.length ≤ r.start + r.length then
      let isInside := fun m : RangeNode =>
        decide (r.start ≤ m.range.start) &&
        decide (m.range.start + m.range.length ≤ r.start + r.length)
      let contained := (RangeNode.mk nr nch :: rest).takeWhile isInside
      let after := (RangeNode.mk nr nch :: rest).dropWhile isInside
      match after with
      | [] => [RangeNode.mk r contained]
      | m :: tail =>
        if r.start + r.length ≤ m.range.start then
          RangeNode.mk r contained :: m :: tail
        else
          RangeNode.mk nr nch :: rest
    else
      RangeNode.mk nr nch :: rest

/-- One step of the reduce in MessageTextRenderer that builds the range
tree: spoiler formatting ranges are always inserted, with the next
sequential spoilerId; any other range is inserted exactly when its start
is inside the official text length, and dropped otherwise.  The state is
the forest so far paired with the spoiler counter. -/
def rangeTreeStep (textLength : Nat) (st : List RangeNode × Nat)
    (range : BodyRange) : List RangeNode × Nat :=
  if range.isSpoilerFormatting then
    (insertRange { range with spoilerId := some (st.2 + 1) } st.1, st.2 + 1)
  else if range.start < textLength then
    (insertRange range st.1, st.2)
  else
    st

/-- The full tree construction of MessageTextRenderer: the initial forest
is the link ranges turned into childless nodes, in order, and the sorted
body ranges are then folded in with rangeTreeStep. -/
def buildRangeTree (sortedRanges : List BodyRange) (links : List BodyRange)
    (textLength : Nat) : List RangeNode :=
  (sortedRanges.foldl (rangeTreeStep textLength)
    (links.map fun b => RangeNode.mk b [], 0)).1

/-- Formatting state inherited from ancestor nodes while collapsing:
the style flags accumulated so far and the url of an enclosing link
range, if any.  Section 4.4: a Bold node whose child is Italic preserves
both through ancestry. -/
structure InheritCtx where
  bold : Bool
  italic : Bool
  strike : Bool
  mono : Bool
  url : Option (List Char)

/-- Inherited state at the top level: no flags, no url. -/
def InheritCtx.root : InheritCtx :=
  InheritCtx.mk false false false false none

/-- Add one formatting style to the inherited state. -/
def InheritCtx.addStyle (c : InheritCtx) : FmtStyle → InheritCtx
  | FmtStyle.bold => InheritCtx.mk true c.italic c.strike c.mono c.url
  | FmtStyle.italic => InheritCtx.mk c.bold true c.strike c.mono c.url
  | FmtStyle.strikethrough => InheritCtx.mk c.bold c.italic true c.mono c.url
  | FmtStyle.monospace => InheritCtx.mk c.bold c.italic c.strike true c.url
  | FmtStyle.spoiler => c

/-- Plain display node covering positions lo to hi with the inherited
flags and url, no spoiler, no mentions. -/
def plainNode (text : List Char) (lo hi : Nat) (ctx : InheritCtx) :
    DisplayNode :=
  DisplayNode.mk lo (hi - lo) (jsSlice text lo hi)
    ctx.bold ctx.italic ctx.strike ctx.mono false false
    none none [] ctx.url

/-- Start of a node's span clipped into the window from lo to hi. -/
def spanLo (lo hi : Nat) (nr : BodyRange) : Nat :=
  max lo (min nr.start hi)

/-- End of a node's span clipped into the window from lo to hi. -/
def spanHi (lo hi : Nat) (nr : BodyRange) : Nat :=
  max (spanLo lo hi nr) (min (nr.start + nr.length) hi)

/-- Modelled from the spec: the worker of collapseRangeTree of
types/BodyRange (section 4.4), absent from the sources.  Walks the nodes
of one sibling level bounded by the window lo to hi (the parent's span,
clipped to the text at the top level); every uncovered stretch of the
window becomes a plain display node carrying the inherited flags; a node
reaching outside the window is clipped to it (spanLo, spanHi) and skipped
entirely when nothing of it remains; a spoiler node becomes one display
node whose spoilerChildren collapse its own children over its span; a
mention node becomes one display node carrying the mention, its children
ignored (mentions are terminal); any other formatting node and every link
node collapses its children in place with the style or url added to the
inherited state, so a childless one yields exactly one display node over
its span. -/
def collapseSpan (text : List Char) :
    List RangeNode → Nat → Nat → InheritCtx → List DisplayNode
  | [], lo, hi, ctx =>
    if lo < hi then [plainNode text lo hi ctx] else []
  | RangeNode.mk nr nch :: rest, lo, hi, ctx =>
    if spanHi lo hi nr ≤ spanLo lo hi nr then
      collapseSpan text rest lo hi ctx
    else
      let gap : List DisplayNode :=
        if lo < spanLo lo hi nr then [plainNode text lo (spanLo lo hi nr) ctx]
        else []
      let these : List DisplayNode :=
        match nr.payload with
        | RangePayload.formatting FmtStyle.spoiler =>
          [DisplayNode.mk (spanLo lo hi nr) (spanHi lo hi nr - spanLo lo hi nr)
            (jsSlice text (spanLo lo hi nr) (spanHi lo hi nr))
            ctx.bold ctx.italic ctx.strike ctx.mono false true
            nr.spoilerId
            (some (collapseSpan text nch (spanLo lo hi nr) (spanHi lo hi nr) ctx))
            [] ctx.url]
        | RangePayload.formatting st =>
          collapseSpan text nch (spanLo lo hi nr) (spanHi lo hi nr)
            (ctx.addStyle st)
        | RangePayload.mention cid name =>
          [DisplayNode.mk (spanLo lo hi nr) (spanHi lo hi nr - spanLo lo hi nr)
            (jsSlice text (spanLo lo hi nr) (spanHi lo hi nr))
            ctx.bold ctx.italic ctx.strike ctx.mono false false
            none none
            [MentionEntry.mk 0 (spanHi lo hi nr - spanLo lo hi nr) cid name]
            ctx.url]
        | RangePayload.link u =>
          collapseSpan text nch (spanLo lo hi nr) (spanHi lo hi nr)
            (InheritCtx.mk ctx.bold ctx.italic ctx.strike ctx.mono (some u))
      gap ++ these ++ collapseSpan text rest (spanHi lo hi nr) hi ctx

/-- Modelled from the spec: collapseRangeTree of types/BodyRange
(section 4.4), absent from the sources.  Collapses the whole forest over
the full text with no inherited formatting. -/
def collapseRangeTree (tree : List RangeNode) (text : List Char) :
    List DisplayNode :=
  collapseSpan text tree 0 text.length InheritCtx.root

/-- Spoiler display node in merged form: children of the node, an empty
list when it has none recorded. -/
def DisplayNode.childrenOrNone (n : DisplayNode) : List DisplayNode :=
  n.spoilerChildren.getD []

/-- One spoiler node rewritten as its own group: same span and text, the
group id of the node itself, and its recorded children. -/
def spoilerGroupOf (n : DisplayNode) : DisplayNode :=
  DisplayNode.mk n.start n.length n.text false false false false false true
    n.spoilerId (some n.childrenOrNone) [] none

/-- Merge of a spoiler group with the group that follows it directly:
span and text concatenated, children concatenated, group id taken from
the first. -/
def mergeSpoilerGroups (n m : DisplayNode) : DisplayNode :=
  DisplayNode.mk n.start (n.length + m.length) (n.text ++ m.text)
    false false false false false true
    n.spoilerId (some (n.childrenOrNone ++ m.childrenOrNone)) [] none

/-- Modelled from the spec: groupContiguousSpoilers of types/BodyRange
(section 4.5), absent from the sources.  Every maximal run of consecutive
display nodes that are spoilers and textually adjacent (each node ending
exactly where the next starts) collapses into one parent spoiler node
whose children are the concatenation of the run members' own children and
whose group id comes from the first member; other nodes pass through. -/
def groupContiguousSpoilers : List DisplayNode → List DisplayNode
  | [] => []
  | n :: rest =>
    let grouped := groupContiguousSpoilers rest
    if n.isSpoiler then
      match grouped with
      | [] => [spoilerGroupOf n]
      | m :: ms =>
        if m.isSpoiler && (n.start + n.length == m.start) then
          mergeSpoilerGroups (spoilerGroupOf n) m :: ms
        else
          spoilerGroupOf n :: m :: ms
    else
      n :: grouped

/-- The node pipeline of MessageTextRenderer: link extraction (skipped
when links are disabled), the mentions-last stable sort, range tree
construction, tree collapse over the display string, and spoiler
grouping.  origMatches stands for the candidates the linkify matcher
produced on the emoji-scrubbed untruncated text. -/
def messageTextFinalNodes (messageText : List Char)
    (origMatches : List LinkMatch) (bodyRanges : List BodyRange)
    (textLength : Nat) (disableLinks : Bool) : List DisplayNode :=
  let links := if disableLinks then [] else extractLinks messageText origMatches
  let sortedRanges := sortMentionsLast bodyRanges
  let tree := buildRangeTree sortedRanges links textLength
  let nodes := collapseRangeTree tree messageText
  groupContiguousSpoilers nodes

/-- Render contexts of the dispatcher (RenderLocation). -/
inductive RenderLocation where
  | conversationList
  | quote
  | mediaEditor
  | pinnedMessagesBar
  | searchResult
  | storyViewer
  | timeline
deriving DecidableEq

/-- Everything renderNode reads besides the node itself: the render
location, the disableLinks switch, the caller-owned reveal map for
spoilers, and the two URL collaborators (SUPPORTED_PROTOCOLS.test and
isLinkSneaky), modelled as abstract predicates. -/
structure RenderCtx where
  renderLocation : RenderLocation
  disableLinks : Bool
  isSpoilerExpanded : Nat → Bool
  urlAllowed : List Char → Bool
  urlSneaky : List Char → Bool

/-- One piece of the mention segmentation of a node's text: either a text
slice or a mention chip (plain when links are disabled), each knowing
whether it is rendered invisibly inside a hidden spoiler. -/
inductive Seg where
  | text (s : List Char) (invisible : Bool)
  | mention (conversationID : Nat) (name : List Char) (plain : Bool)
            (invisible : Bool)
deriving DecidableEq

/-- Inner content of a rendered node: the mention segmentation wrapped by
the style elements the dispatcher applied, outermost constructor first. -/
inductive Content where
  | base (segs : List Seg)
  | strong (c : Content)
  | em (c : Content)
  | strike (c : Content)
deriving DecidableEq

/-- Output shape of the dispatcher: revealed or hidden spoiler group,
fenced code block, hyperlink, or plain styled span.  The first argument
is always the node's start offset (the React key). -/
inductive Rendered where
  | spoilerRevealed (key : Nat) (content : List Rendered)
  | spoilerHidden (key : Nat) (content : List Rendered)
  | codeBlock (key : Nat) (lang : Option (List Char)) (body : List Char)
              (invisible : Bool)
  | link (key : Nat) (mono : Bool) (kw : Bool) (invisible : Bool)
         (url : List Char) (content : Content)
  | span (key : Nat) (mono : Bool) (kw : Bool) (invisible : Bool)
         (content : Content)

/-- The fixed known-language list of the renderer, verbatim. -/
def KNOWN_LANGUAGES : List (List Char) :=
  ([ "javascript", "js", "typescript", "ts", "python", "py", "java", "c",
     "cpp", "c++", "csharp", "c#", "cs", "go", "rust", "rs", "ruby", "rb",
     "php", "swift", "kotlin", "scala", "html", "css", "scss", "sass",
     "less", "json", "xml", "yaml", "yml", "toml", "sql", "bash", "sh",
     "shell", "zsh", "powershell", "ps1", "dockerfile", "docker", "makefile",
     "lua", "perl", "r", "matlab", "julia", "elixir", "ex", "erlang",
     "haskell", "hs", "clojure", "clj", "lisp", "scheme", "ocaml", "ml",
     "fsharp", "f#", "dart", "zig", "nim", "v", "assembly", "asm", "nasm",
     "wasm", "graphql", "gql", "proto", "protobuf", "terraform", "tf",
     "diff", "patch", "ini", "conf", "nginx", "apache", "markdown", "md",
     "latex", "tex", "csv", "tsv", "plaintext", "text", "txt", "log",
     "jsx", "tsx", "vue", "svelte", "astro", "objc", "objective-c"
   ] : List String).map String.toList

/-- Index of the first line break in the text (its length when none),
modelling String.indexOf on text known to contain one. -/
def firstNewlineIdx : List Char → Nat
  | [] => 0
  | c :: cs => if c = '\n' then 0 else firstNewlineIdx cs + 1

/-- Whitespace removed by JS String.prototype.trim (the ASCII part). -/
def isJsWhitespace (c : Char) : Bool :=
  c = ' ' || c = '\t' || c = '\n' || c = '\r' || c = '\x0B' || c = '\x0C'

/-- JS trim on a list of code units. -/
def jsTrim (l : List Char) : List Char :=
  ((l.dropWhile isJsWhitespace).reverse.dropWhile isJsWhitespace).reverse

/-- JS toLowerCase, restricted to the simple one-to-one case mapping. -/
def toLowerList (l : List Char) : List Char :=
  l.map Char.toLower

/-- The mention segmentation loop of renderMentions: text before each
mention (only when non-empty), a chip per mention, and always a final
text piece from the last mention's end to the end of the node's text. -/
def mentionSegs (disableLinks inv : Bool) (text : List Char) :
    Nat → List MentionEntry → List Seg
  | off, [] => [Seg.text (jsSlice text off text.length) inv]
  | off, m :: ms =>
    (if off < m.start then [Seg.text (jsSlice text off m.start) inv] else [])
    ++ Seg.mention m.conversationID m.replacementText disableLinks inv
       :: mentionSegs disableLinks inv text (m.start + m.length) ms

/-- Content of renderMentions for a display node. -/
def renderMentions (disableLinks inv : Bool) (node : DisplayNode) :
    List Seg :=
  mentionSegs disableLinks inv node.text 0 node.mentions

/-- The jsx truthiness test guarding the hyperlink branch for one url:
url non-empty, scheme allowed, and not sneaky. -/
def linkRenderCheck (ctx : RenderCtx) (u : List Char) : Bool :=
  !u.isEmpty && ctx.urlAllowed u && !ctx.urlSneaky u

/-- The hyperlink branch guard of renderNode on a node: its url is
present and passes linkRenderCheck. -/
def nodeUrlOk (ctx : RenderCtx) (node : DisplayNode) : Bool :=
  match node.url with
  | some u => linkRenderCheck ctx u
  | none => false

/-- The code-block branch guard of renderNode: monospace node whose text
contains a line break, rendered in the Timeline location. -/
def takesCodeBlockBranch (ctx : RenderCtx) (node : DisplayNode) : Bool :=
  node.isMonospace && node.text.contains '\n' &&
    decide (ctx.renderLocation = RenderLocation.timeline)

/-- The spoiler branch guard of renderNode: isSpoiler with a non-empty
spoilerChildren list (the optional-chain length test of the source). -/
def DisplayNode.takesSpoilerBranch (n : DisplayNode) : Bool :=
  n.isSpoiler && !n.childrenOrNone.isEmpty

/-- Everything renderNode does after the spoiler branch: mention
segmentation, style wrapping applied bold first, italic second,
strikethrough last (so strikethrough is outermost), then the code-block
branch, then the hyperlink branch, and a plain span otherwise. -/
def renderNodePlain (ctx : RenderCtx) (inv : Bool) (node : DisplayNode) :
    Rendered :=
  let c0 := Content.base (renderMentions ctx.disableLinks inv node)
  let c1 := if node.isBold || node.isKeywordHighlight then Content.strong c0
            else c0
  let c2 := if node.isItalic then Content.em c1 else c1
  let c3 := if node.isStrikethrough then Content.strike c2 else c2
  if takesCodeBlockBranch ctx node then
    let fn := firstNewlineIdx node.text
    let possibleLang := toLowerList (jsTrim (node.text.take fn))
    if decide (0 < fn) && KNOWN_LANGUAGES.contains possibleLang then
      Rendered.codeBlock node.start (some possibleLang)
        (node.text.drop (fn + 1)) inv
    else
      Rendered.codeBlock node.start none node.text inv
  else if nodeUrlOk ctx node then
    Rendered.link node.start node.isMonospace node.isKeywordHighlight inv
      (node.url.getD []) c3
  else
    Rendered.span node.start node.isMonospace node.isKeywordHighlight inv c3

mutual

/-- The dispatcher renderNode: a spoiler node with children renders as a
spoiler group, hidden unless the reveal map is set for its spoilerId
(children are rendered with invisibility equal to hiddenness, as in the
source); every other node goes through renderNodePlain. -/
def renderNode : RenderCtx → Bool → DisplayNode → Rendered
  | ctx, inv, DisplayNode.mk st ln tx b it sk mo kw sp sid
      (some (c :: cs)) ms u =>
    if sp then
      let hidden := !ctx.isSpoilerExpanded (sid.getD 0)
      let content := renderNodes ctx hidden (c :: cs)
      if !hidden then Rendered.spoilerRevealed st content
      else Rendered.spoilerHidden st content
    else
      renderNodePlain ctx inv
        (DisplayNode.mk st ln tx b it sk mo kw sp sid (some (c :: cs)) ms u)
  | ctx, inv, n => renderNodePlain ctx inv n

/-- renderNode mapped over a list of nodes. -/
def renderNodes : RenderCtx → Bool → List DisplayNode → List Rendered
  | _, _, [] => []
  | ctx, inv, c :: cs => renderNode ctx inv c :: renderNodes ctx inv cs

end

/-- True for the two spoiler-group output shapes. -/
def Rendered.isSpoilerShape : Rendered → Bool
  | Rendered.spoilerRevealed _ _ => true
  | Rendered.spoilerHidden _ _ => true
  | _ => false

/-- True for the code-block output shape. -/
def Rendered.isCodeBlock : Rendered → Bool
  | Rendered.codeBlock _ _ _ _ => true
  | _ => false

/-- True for the hyperlink output shape. -/
def Rendered.isLink : Rendered → Bool
  | Rendered.link _ _ _ _ _ _ => true
  | _ => false

/-- Language tag of a code block, none otherwise. -/
def Rendered.codeLang : Rendered → Option (List Char)
  | Rendered.codeBlock _ lang _ _ => lang
  | _ => none

/-- Body of a code block. -/
def Rendered.codeBody : Rendered → Option (List Char)
  | Rendered.codeBlock _ _ body _ => some body
  | _ => none

/-- Styled content carried by a hyperlink or span output. -/
def Rendered.contentOf : Rendered → Option Content
  | Rendered.link _ _ _ _ _ c => some c
  | Rendered.span _ _ _ _ c => some c
  | _ => none

/-- Names of the three style wrappers. -/
inductive StyleTag where
  | strongTag
  | emTag
  | strikeTag
deriving DecidableEq

/-- Style wrappers applied around a content, outermost first. -/
def Content.wrapTags : Content → List StyleTag
  | Content.base _ => []
  | Content.strong c => StyleTag.strongTag :: c.wrapTags
  | Content.em c => StyleTag.emTag :: c.wrapTags
  | Content.strike c => StyleTag.strikeTag :: c.wrapTags

/-- The wrapper order the dispatcher actually produces from a node's
flags, outermost first: strikethrough, then italic, then bold. -/
def styleTagList (node : DisplayNode) : List StyleTag :=
  (if node.isStrikethrough then [StyleTag.strikeTag] else []) ++
  (if node.isItalic then [StyleTag.emTag] else []) ++
  (if node.isBold || node.isKeywordHighlight then [StyleTag.strongTag] else [])

/-- The display-node list tiles the window from lo to hi: the first node
starts at lo, every node has positive length and is followed immediately
by the next, and the last one ends exactly at hi (empty list only when
the window is empty). -/
def TilesP : List DisplayNode → Nat → Nat → Prop
  | [], lo, hi => lo = hi
  | n :: rest, lo, hi => n.start = lo ∧ 0 < n.length ∧ TilesP rest (lo + n.length) hi

/-- Concrete render context: full timeline, links enabled, no spoiler
revealed, every scheme allowed, nothing sneaky. -/
def ctx0 : RenderCtx :=
  RenderCtx.mk RenderLocation.timeline false (fun _ => false) (fun _ => true)
    (fun _ => false)

/-- Concrete render context equal to ctx0 except that every spoiler is
revealed. -/
def ctxRevealAll : RenderCtx :=
  RenderCtx.mk RenderLocation.timeline false (fun _ => true) (fun _ => true)
    (fun _ => false)

/-- Concrete node with bold, italic and strikethrough all set. -/
def nodeBIS : DisplayNode :=
  DisplayNode.mk 0 1 ['x'] true true true false false false none none [] none

/-- Concrete plain child node over a three-character monospace text. -/
def childPlain : DisplayNode :=
  DisplayNode.mk 0 3 ('a' :: '\n' :: ['b']) false false false false false false
    none none [] none

/-- Concrete spoiler node with a child whose own flags also include
monospace and whose text contains a line break. -/
def nodeSpoilMono : DisplayNode :=
  DisplayNode.mk 0 3 ('a' :: '\n' :: ['b']) false false false true false true
    (some 1) (some [childPlain]) [] none

/-- Concrete monospace node whose first line is the language tag python. -/
def nodePy : DisplayNode :=
  DisplayNode.mk 0 15 (String.toList "python\nprint(1)") false false false true
    false false none none [] none

/-- Concrete monospace node with a line break that is also tagged with an
acceptable url. -/
def nodeMonoUrl : DisplayNode :=
  DisplayNode.mk 0 3 ('a' :: '\n' :: ['b']) false false false true false false
    none none [] (some (String.toList "https://a.co"))

/-- Concrete spoiler node with no spoilerChildren recorded. -/
def nodeEmptySp : DisplayNode :=
  DisplayNode.mk 0 2 ('h' :: ['i']) false false false false false true (some 1)
    none [] none

/-- Concrete spoiler formatting range starting past any small text. -/
def spoilerFarRange : BodyRange :=
  BodyRange.mk 5 2 (RangePayload.formatting FmtStyle.spoiler) none

/-- Inserting a non-mention range into any list places it first, since no
key is smaller than its key 0. -/
theorem sortMentionInsert_nonmention (x : BodyRange) (h : x.isMention = false)
    (l : List BodyRange) : sortMentionInsert x l = x :: l := by
  cases l with
  | nil => rfl
  | cons y ys => simp [sortMentionInsert, h]

/-- Inserting a mention range into a list that is all non-mentions
followed by all mentions places it right between the two groups. -/
theorem sortMentionInsert_mention (x : BodyRange) (h : x.isMention = true) :
    ∀ (a b : List BodyRange), (∀ y ∈ a, y.isMention = false) →
    (∀ y ∈ b, y.isMention = true) →
    sortMentionInsert x (a ++ b) = a ++ x :: b := by
  intro a
  induction a with
  | nil =>
    intro b _ hb
    cases b with
    | nil => rfl
    | cons y ys =>
      have hy := hb y (by simp)
      simp [sortMentionInsert, h, hy]
  | cons z zs ih =>
    intro b ha hb
    have hz := ha z (by simp)
    have step : sortMentionInsert x (z :: (zs ++ b)) =
        z :: sortMentionInsert x (zs ++ b) := by
      simp [sortMentionInsert, h, hz]
    simpa [step] using congrArg (z :: ·) (ih b (fun y hy => ha y (by simp [hy])) hb)

/-- C8: the mentions-last sort of the renderer is stable and moves every
mention range after every non-mention range: its output is exactly the
non-mention ranges in input order followed by the mention ranges in input
order. -/
theorem sortMentionsLast_stable_split (l : List BodyRange) :
    sortMentionsLast l =
      l.filter (fun r => !r.isMention) ++ l.filter (fun r => r.isMention) := by
  induction l with
  | nil => rfl
  | cons x xs ih =>
    have hx : sortMentionsLast (x :: xs) = sortMentionInsert x (sortMentionsLast xs) := rfl
    rw [hx, ih]
    by_cases h : x.isMention
    · rw [sortMentionInsert_mention x h _ _
        (fun y hy => by
          have := List.of_mem_filter hy
          simpa using this)
        (fun y hy => by
          have := List.of_mem_filter hy
          simpa using this)]
      simp [List.filter, h]
    · have h' : x.isMention = false := by simpa using h
      rw [sortMentionInsert_nonmention x h']
      simp [List.filter, h']

/-- C9: the whole node pipeline is a pure function of its inputs: two
runs on identical inputs give identical node sequences. -/
theorem messageTextFinalNodes_deterministic
    (t1 t2 : List Char) (m1 m2 : List LinkMatch) (r1 r2 : List BodyRange)
    (n1 n2 : Nat) (d1 d2 : Bool)
    (ht : t1 = t2) (hm : m1 = m2) (hr : r1 = r2) (hn : n1 = n2)
    (hd : d1 = d2) :
    messageTextFinalNodes t1 m1 r1 n1 d1 = messageTextFinalNodes t2 m2 r2 n2 d2 := by
  subst ht hm hr hn hd
  rfl

/-- Witness for the determinism theorem at a concrete input. -/
theorem messageTextFinalNodes_deterministic_witness :
    messageTextFinalNodes ['h', 'i'] [] [spoilerFarRange] 2 true =
      messageTextFinalNodes ['h', 'i'] [] [spoilerFarRange] 2 true :=
  messageTextFinalNodes_deterministic ['h', 'i'] ['h', 'i'] [] []
    [spoilerFarRange] [spoilerFarRange] 2 2 true true rfl rfl rfl rfl rfl

/-- C4: every link range returned by extractLinks starts strictly inside
the display text, ends within it, and the display text reproduces the
matched url at exactly those offsets; and any candidate from the matcher
that fails one of those three checks is absent from the result. -/
theorem extractLinks_bounds (messageText : List Char) (cands : List LinkMatch)
    (hsane : ∀ m ∈ cands, m.index ≤ m.lastIndex) :
    (∀ r ∈ extractLinks messageText cands,
        r.start < messageText.length ∧
        r.start + r.length ≤ messageText.length ∧
        r.linkUrl = some (jsSlice messageText r.start (r.start + r.length))) ∧
    (∀ m ∈ cands,
        ¬(m.index < messageText.length ∧ m.lastIndex ≤ messageText.length ∧
            jsSlice messageText m.index m.lastIndex = m.url) →
        linkMatchRange m ∉ extractLinks messageText cands) := by
  constructor
  · intro r hr
    simp only [extractLinks, List.mem_map, List.mem_filter] at hr
    obtain ⟨m, ⟨hmem, hcond⟩, hrm⟩ := hr
    simp only [Bool.and_eq_true, decide_eq_true_eq, beq_iff_eq] at hcond
    obtain ⟨⟨h1, h2⟩, h3⟩ := hcond
    have hle := hsane m hmem
    have hsum : m.index + (m.lastIndex - m.index) = m.lastIndex := by omega
    subst hrm
    simp only [linkMatchRange, BodyRange.linkUrl]
    refine ⟨h1, ?_, ?_⟩
    · simpa [hsum] using h2
    · rw [hsum, h3]
  · intro m hm hfail hmem
    simp only [extractLinks, List.mem_map, List.mem_filter] at hmem
    obtain ⟨m1, ⟨hmem1, hcond1⟩, heq⟩ := hmem
    simp only [Bool.and_eq_true, decide_eq_true_eq, beq_iff_eq] at hcond1
    obtain ⟨⟨g1, g2⟩, g3⟩ := hcond1
    simp only [linkMatchRange, BodyRange.mk.injEq, RangePayload.link.injEq,
      and_true] at heq
    obtain ⟨hidx, hlen, hurl⟩ := heq
    have s1 := hsane m hm
    have s2 := hsane m1 hmem1
    have hlast : m1.lastIndex = m.lastIndex := by omega
    exact hfail ⟨hidx ▸ g1, hlast ▸ g2, by rw [← hidx, ← hlast, ← hurl]; exact g3⟩

/-- Witness for the extractLinks theorem: a candidate whose end reaches
past the display text is absent from the result. -/
theorem extractLinks_bounds_witness :
    linkMatchRange (LinkMatch.mk 1 3 ['b', 'c']) ∉
      extractLinks ['a', 'b']
        [LinkMatch.mk 0 2 ['a', 'b'], LinkMatch.mk 1 3 ['b', 'c']] :=
  (extractLinks_bounds ['a', 'b']
      [LinkMatch.mk 0 2 ['a', 'b'], LinkMatch.mk 1 3 ['b', 'c']]
      (by decide)).2
    (LinkMatch.mk 1 3 ['b', 'c']) (by decide) (by decide)

/-- Pointwise description of one splice: positions inside the replaced
span read a space, every other position reads the original character. -/
theorem spliceSpaces_getElem (t : List Char) (a b i : Nat) (hab : a ≤ b)
    (hb : b ≤ t.length) :
    (spliceSpaces t a b)[i]? = if a ≤ i ∧ i < b then some ' ' else t[i]? := by
  unfold spliceSpaces
  rw [List.append_assoc]
  have hta : (t.take a).length = a := by
    rw [List.length_take]
    omega
  by_cases h1 : i < a
  · rw [List.getElem?_append_left (by rw [hta]; exact h1), List.getElem?_take,
      if_pos h1, if_neg (by omega)]
  · rw [List.getElem?_append_right (by omega)]
    by_cases h2 : i < b
    · rw [List.getElem?_append_left
        (by rw [List.length_replicate, hta]; omega)]
      rw [List.getElem?_replicate, if_pos (by rw [hta]; omega),
        if_pos (by omega)]
    · rw [List.getElem?_append_right
        (by rw [List.length_replicate, hta]; omega)]
      rw [List.getElem?_drop, if_neg (by omega)]
      congr 1
      rw [hta, List.length_replicate]
      omega

/-- Length of one splice. -/
theorem spliceSpaces_length (t : List Char) (a b : Nat) (hab : a ≤ b)
    (hb : b ≤ t.length) : (spliceSpaces t a b).length = t.length := by
  simp only [spliceSpaces, List.length_append, List.length_take,
    List.length_replicate, List.length_drop]
  omega

/-- Invariant of the left fold over the emoji spans: length is preserved,
positions outside all remaining spans keep their character, spaces stay
spaces, and positions inside a remaining span end as a space. -/
theorem replaceEmojiWithSpaces_go (spans : List (Nat × Nat)) :
    ∀ t : List Char, (∀ s ∈ spans, s.1 ≤ s.2 ∧ s.2 ≤ t.length) →
    (replaceEmojiWithSpaces t spans).length = t.length ∧
    ∀ i : Nat,
      ((∀ s ∈ spans, ¬(s.1 ≤ i ∧ i < s.2)) →
        (replaceEmojiWithSpaces t spans)[i]? = t[i]?) ∧
      (t[i]? = some ' ' → (replaceEmojiWithSpaces t spans)[i]? = some ' ') ∧
      (∀ s ∈ spans, s.1 ≤ i → i < s.2 →
        (replaceEmojiWithSpaces t spans)[i]? = some ' ') := by
  induction spans with
  | nil =>
    intro t _
    exact ⟨rfl, fun i => ⟨fun _ => rfl, fun h => h, fun s hs => absurd hs (by simp)⟩⟩
  | cons p rest ih =>
    intro t hb
    have hp := hb p (by simp)
    have hrest : ∀ s ∈ rest, s.1 ≤ s.2 ∧ s.2 ≤ (spliceSpaces t p.1 p.2).length := by
      intro s hs
      rw [spliceSpaces_length t p.1 p.2 hp.1 hp.2]
      exact hb s (by simp [hs])
    have hfold : replaceEmojiWithSpaces t (p :: rest) =
        replaceEmojiWithSpaces (spliceSpaces t p.1 p.2) rest := rfl
    obtain ⟨ihlen, ihpt⟩ := ih (spliceSpaces t p.1 p.2) hrest
    rw [hfold, ihlen, spliceSpaces_length t p.1 p.2 hp.1 hp.2]
    refine ⟨rfl, fun i => ⟨?_, ?_, ?_⟩⟩
    · intro hout
      have hofirst := hout p (by simp)
      rw [(ihpt i).1 (fun s hs => hout s (by simp [hs])),
        spliceSpaces_getElem t p.1 p.2 i hp.1 hp.2, if_neg hofirst]
    · intro hsp
      refine (ihpt i).2.1 ?_
      rw [spliceSpaces_getElem t p.1 p.2 i hp.1 hp.2]
      by_cases hin : p.1 ≤ i ∧ i < p.2
      · rw [if_pos hin]
      · rw [if_neg hin]; exact hsp
    · intro s hs hsi his
      rcases List.mem_cons.mp hs with hhead | htail
      · refine (ihpt i).2.1 ?_
        rw [spliceSpaces_getElem t p.1 p.2 i hp.1 hp.2,
          if_pos (by rw [← hhead]; exact ⟨hsi, his⟩)]
      · exact (ihpt i).2.2 s htail hsi his

/-- C5: the emoji scrub replaces each emoji span with an equally long run
of spaces: the scrubbed text has exactly the length of the original,
every position outside all emoji spans keeps its character (so all
non-emoji offsets survive for the matcher), and every position inside an
emoji span reads a plain space. -/
theorem replaceEmojiWithSpaces_offsets (t : List Char)
    (spans : List (Nat × Nat))
    (hspans : ∀ s ∈ spans, s.1 ≤ s.2 ∧ s.2 ≤ t.length) :
    (replaceEmojiWithSpaces t spans).length = t.length ∧
    (∀ i : Nat, (∀ s ∈ spans, ¬(s.1 ≤ i ∧ i < s.2)) →
      (replaceEmojiWithSpaces t spans)[i]? = t[i]?) ∧
    (∀ i : Nat, ∀ s ∈ spans, s.1 ≤ i → i < s.2 →
      (replaceEmojiWithSpaces t spans)[i]? = some ' ') := by
  obtain ⟨hlen, hpt⟩ := replaceEmojiWithSpaces_go spans t hspans
  exact ⟨hlen, fun i h => (hpt i).1 h, fun i s hs h1 h2 => (hpt i).2.2 s hs h1 h2⟩

/-- Witness for the scrub theorem on a four-character text with one
two-character emoji span: the character after the span keeps its offset
and the span itself reads spaces. -/
theorem replaceEmojiWithSpaces_offsets_witness :
    (replaceEmojiWithSpaces ['a', 'X', 'Y', 'b'] [(1, 3)])[3]? = some 'b' ∧
    (replaceEmojiWithSpaces ['a', 'X', 'Y', 'b'] [(1, 3)])[1]? = some ' ' := by
  constructor
  · exact ((replaceEmojiWithSpaces_offsets ['a', 'X', 'Y', 'b'] [(1, 3)]
      (by decide)).2.1 3 (by decide)).trans (by decide)
  · exact (replaceEmojiWithSpaces_offsets ['a', 'X', 'Y', 'b'] [(1, 3)]
      (by decide)).2.2 1 (1, 3) (by decide) (by decide) (by decide)

/-- Counterexample to C2 as stated: a spoiler formatting range whose
start (5) lies past the whole official text (textLength 0) is not
dropped during normalization; it reaches the tree builder and ends up in
the forest, with a fresh spoilerId. -/
theorem rangeTree_spoiler_not_dropped :
    buildRangeTree [spoilerFarRange] [] 0 =
      [RangeNode.mk
        (BodyRange.mk 5 2 (RangePayload.formatting FmtStyle.spoiler) (some 1))
        []] := by
  simp [buildRangeTree, rangeTreeStep, spoilerFarRange,
    BodyRange.isSpoilerFormatting, insertRange]

/-- C2 amended: during tree construction a non-spoiler range whose start
is at or past textLength is dropped before reaching insertRange, a
non-spoiler range whose start lies inside textLength is inserted exactly
as supplied (its tail may exceed textLength), and spoiler formatting
ranges are exempt from the textLength check: they are always inserted,
carrying the next sequential spoilerId; consequently a list of
non-spoiler out-of-bounds ranges leaves the forest at its initial
link-leaf state. -/
theorem rangeTreeStep_drop_policy (textLength : Nat) (links : List BodyRange)
    (acc : List RangeNode) (cnt : Nat) (r : BodyRange) :
    (r.isSpoilerFormatting = false → textLength ≤ r.start →
        rangeTreeStep textLength (acc, cnt) r = (acc, cnt)) ∧
    (r.isSpoilerFormatting = false → r.start < textLength →
        rangeTreeStep textLength (acc, cnt) r = (insertRange r acc, cnt)) ∧
    (r.isSpoilerFormatting = true →
        rangeTreeStep textLength (acc, cnt) r =
          (insertRange { r with spoilerId := some (cnt + 1) } acc, cnt + 1)) ∧
    (∀ rs : List BodyRange,
        (∀ x ∈ rs, x.isSpoilerFormatting = false ∧ textLength ≤ x.start) →
        buildRangeTree rs links textLength =
          links.map fun b => RangeNode.mk b []) := by
  refine ⟨?_, ?_, ?_, ?_⟩
  · intro h1 h2
    simp [rangeTreeStep, h1, Nat.not_lt.mpr h2]
  · intro h1 h2
    simp [rangeTreeStep, h1, h2]
  · intro h1
    simp [rangeTreeStep, h1]
  · intro rs hall
    have h : ∀ (rs' : List BodyRange),
        (∀ x ∈ rs', x.isSpoilerFormatting = false ∧ textLength ≤ x.start) →
        ∀ st : List RangeNode × Nat,
          List.foldl (rangeTreeStep textLength) st rs' = st := by
      intro rs'
      induction rs' with
      | nil => intro _ st; rfl
      | cons x xs ih =>
        intro hall' st
        have hx := hall' x (by simp)
        have hstep : rangeTreeStep textLength st x = st := by
          simp [rangeTreeStep, hx.1, Nat.not_lt.mpr hx.2]
        rw [List.foldl_cons, hstep, ih (fun y hy => hall' y (by simp [hy])) st]
    unfold buildRangeTree
    rw [h rs hall]

/-- Witness for the amended drop policy at concrete inputs: an
out-of-bounds bold range is dropped, an in-bounds bold range whose tail
exceeds textLength is inserted as-is, an out-of-bounds spoiler range is
still inserted with spoilerId 1, and a list with only an out-of-bounds
bold range leaves the forest empty. -/
theorem rangeTreeStep_drop_policy_witness :
    rangeTreeStep 2 ([], 0)
        (BodyRange.mk 3 1 (RangePayload.formatting FmtStyle.bold) none) =
      ([], 0) ∧
    rangeTreeStep 2 ([], 0)
        (BodyRange.mk 1 5 (RangePayload.formatting FmtStyle.bold) none) =
      (insertRange (BodyRange.mk 1 5 (RangePayload.formatting FmtStyle.bold) none)
        [], 0) ∧
    rangeTreeStep 0 ([], 0) spoilerFarRange =
      (insertRange { spoilerFarRange with spoilerId := some 1 } [], 1) ∧
    buildRangeTree
        [BodyRange.mk 9 1 (RangePayload.formatting FmtStyle.bold) none] [] 2 =
      [] := by
  refine ⟨?_, ?_, ?_, ?_⟩
  · exact (rangeTreeStep_drop_policy 2 [] [] 0
      (BodyRange.mk 3 1 (RangePayload.formatting FmtStyle.bold) none)).1
      (by decide) (by decide)
  · exact (rangeTreeStep_drop_policy 2 [] [] 0
      (BodyRange.mk 1 5 (RangePayload.formatting FmtStyle.bold) none)).2.1
      (by decide) (by decide)
  · exact (rangeTreeStep_drop_policy 0 [] [] 0 spoilerFarRange).2.2.1 (by decide)
  · exact (rangeTreeStep_drop_policy 2 [] [] 0 spoilerFarRange).2.2.2
      [BodyRange.mk 9 1 (RangePayload.formatting FmtStyle.bold) none]
      (by decide)

/-- A node that does not satisfy the spoiler-branch guard is dispatched
by the fallthrough path renderNodePlain. -/
theorem renderNode_not_spoilerBranch (ctx : RenderCtx) (inv : Bool)
    (node : DisplayNode) (h : node.takesSpoilerBranch = false) :
    renderNode ctx inv node = renderNodePlain ctx inv node := by
  cases node with
  | mk st ln tx b it sk mo kw sp sid ch ms u =>
    cases ch with
    | none =>
      rw [renderNode]
      simp
    | some l =>
      cases l with
      | nil =>
        rw [renderNode]
        simp
      | cons c cs =>
        have hsp : sp = false := by
          simpa [DisplayNode.takesSpoilerBranch, DisplayNode.isSpoiler,
            DisplayNode.childrenOrNone, DisplayNode.spoilerChildren] using h
        rw [renderNode, if_neg (by simp [hsp])]

/-- A node that satisfies the spoiler-branch guard renders as one of the
two spoiler shapes. -/
theorem renderNode_spoilerBranch (ctx : RenderCtx) (inv : Bool)
    (node : DisplayNode) (h : node.takesSpoilerBranch = true) :
    (renderNode ctx inv node).isSpoilerShape = true := by
  cases node with
  | mk st ln tx b it sk mo kw sp sid ch ms u =>
    cases ch with
    | none =>
      simp [DisplayNode.takesSpoilerBranch, DisplayNode.isSpoiler,
        DisplayNode.childrenOrNone, DisplayNode.spoilerChildren] at h
    | some l =>
      cases l with
      | nil =>
        simp [DisplayNode.takesSpoilerBranch, DisplayNode.isSpoiler,
          DisplayNode.childrenOrNone, DisplayNode.spoilerChildren] at h
      | cons c cs =>
        have hsp : sp = true := by
          simpa [DisplayNode.takesSpoilerBranch, DisplayNode.isSpoiler,
            DisplayNode.childrenOrNone, DisplayNode.spoilerChildren] using h
        rw [renderNode, if_pos (by simp [hsp])]
        by_cases hrev : ctx.isSpoilerExpanded (sid.getD 0) <;>
          simp [hrev, Rendered.isSpoilerShape]

/-- The fallthrough path never produces a spoiler shape. -/
theorem renderNodePlain_not_spoilerShape (ctx : RenderCtx) (inv : Bool)
    (node : DisplayNode) :
    (renderNodePlain ctx inv node).isSpoilerShape = false := by
  simp only [renderNodePlain]
  split_ifs <;> simp [Rendered.isSpoilerShape]

/-- A spoiler shape is not a code block. -/
theorem spoilerShape_not_codeBlock (r : Rendered)
    (h : r.isSpoilerShape = true) : r.isCodeBlock = false := by
  cases r <;> simp_all [Rendered.isSpoilerShape, Rendered.isCodeBlock]

/-- A spoiler shape is not a hyperlink. -/
theorem spoilerShape_not_link (r : Rendered)
    (h : r.isSpoilerShape = true) : r.isLink = false := by
  cases r <;> simp_all [Rendered.isSpoilerShape, Rendered.isLink]

/-- C3 amended: whenever the dispatcher produces a styled span or
hyperlink (every node not taken by the spoiler branch, except code
blocks, which discard the styled content), the style wrappers around the
content are, outermost first, strikethrough, then italic, then bold:
bold is applied innermost and strikethrough outermost, for exactly the
flags that are set. -/
theorem renderNode_style_order (ctx : RenderCtx) (inv : Bool)
    (node : DisplayNode) (c : Content)
    (h : node.takesSpoilerBranch = false)
    (hc : (renderNode ctx inv node).contentOf = some c) :
    c.wrapTags = styleTagList node := by
  rw [renderNode_not_spoilerBranch ctx inv node h] at hc
  simp only [renderNodePlain] at hc
  split at hc
  · split at hc <;> simp [Rendered.contentOf] at hc
  · have hcon :
        (if node.isStrikethrough then
          Content.strike (if node.isItalic then
            Content.em (if node.isBold || node.isKeywordHighlight then
              Content.strong (Content.base (renderMentions ctx.disableLinks inv node))
            else Content.base (renderMentions ctx.disableLinks inv node))
          else if node.isBold || node.isKeywordHighlight then
            Content.strong (Content.base (renderMentions ctx.disableLinks inv node))
          else Content.base (renderMentions ctx.disableLinks inv node))
        else if node.isItalic then
          Content.em (if node.isBold || node.isKeywordHighlight then
            Content.strong (Content.base (renderMentions ctx.disableLinks inv node))
          else Content.base (renderMentions ctx.disableLinks inv node))
        else if node.isBold || node.isKeywordHighlight then
          Content.strong (Content.base (renderMentions ctx.disableLinks inv node))
        else Content.base (renderMentions ctx.disableLinks inv node)) = c := by
      split at hc <;> simpa [Rendered.contentOf] using hc
    subst hcon
    by_cases hb : (node.isBold || node.isKeywordHighlight) = true <;>
      by_cases hi : node.isItalic = true <;>
      by_cases hs : node.isStrikethrough = true <;>
      simp_all [Content.wrapTags, styleTagList]

/-- Witness for the style-order theorem: on a node with bold, italic and
strikethrough all set, the produced wrapping is strike around em around
strong around the bare content. -/
theorem renderNode_style_order_witness :
    Content.wrapTags
        (Content.strike (Content.em (Content.strong
          (Content.base [Seg.text ['x'] false])))) = styleTagList nodeBIS := by
  refine renderNode_style_order ctx0 false nodeBIS _ (by decide) ?_
  rw [renderNode_not_spoilerBranch ctx0 false nodeBIS (by decide)]
  rfl

/-- Counterexample to C3 as stated: on a concrete node with bold, italic
and strikethrough all set the dispatcher wraps bold innermost and
strikethrough outermost, not strikethrough innermost and bold outermost
as claimed. -/
theorem renderNode_style_order_refuted :
    (Rendered.contentOf (renderNode ctx0 false nodeBIS)).map Content.wrapTags =
      some [StyleTag.strikeTag, StyleTag.emTag, StyleTag.strongTag] ∧
    (Rendered.contentOf (renderNode ctx0 false nodeBIS)).map Content.wrapTags ≠
      some [StyleTag.strongTag, StyleTag.emTag, StyleTag.strikeTag] := by
  have h1 : renderNode ctx0 false nodeBIS = renderNodePlain ctx0 false nodeBIS :=
    renderNode_not_spoilerBranch ctx0 false nodeBIS (by decide)
  rw [h1]
  exact ⟨by decide, by decide⟩

/-- C6 amended: for every node not taken by the spoiler branch, the
dispatcher emits a code block exactly when the node is monospace, its
text contains a line break and the context is the full timeline; the
block carries a language tag exactly when the first line, trimmed and
lower-cased, is an entry of the known-language list, in which case the
body is the text after the first line break, and otherwise the body is
the entire original text with no tag. -/
theorem renderNode_codeBlock (ctx : RenderCtx) (inv : Bool)
    (node : DisplayNode) (h : node.takesSpoilerBranch = false) :
    (takesCodeBlockBranch ctx node = true →
        (renderNode ctx inv node).isCodeBlock = true ∧
        (renderNode ctx inv node).codeLang =
          (if KNOWN_LANGUAGES.contains
              (toLowerList (jsTrim (node.text.take (firstNewlineIdx node.text)))) then
            some (toLowerList (jsTrim (node.text.take (firstNewlineIdx node.text))))
          else none) ∧
        (renderNode ctx inv node).codeBody =
          some (if KNOWN_LANGUAGES.contains
              (toLowerList (jsTrim (node.text.take (firstNewlineIdx node.text)))) then
            node.text.drop (firstNewlineIdx node.text + 1)
          else node.text)) ∧
    (takesCodeBlockBranch ctx node = false →
        (renderNode ctx inv node).isCodeBlock = false) := by
  rw [renderNode_not_spoilerBranch ctx inv node h]
  constructor
  · intro hcb
    simp only [renderNodePlain, hcb, if_true]
    by_cases hk : toLowerList (jsTrim (node.text.take (firstNewlineIdx node.text)))
        ∈ KNOWN_LANGUAGES
    · rcases Nat.eq_zero_or_pos (firstNewlineIdx node.text) with hfn | hfn
      · exfalso
        rw [hfn] at hk
        simp only [List.take_zero, jsTrim, toLowerList, List.dropWhile_nil,
          List.reverse_nil, List.map_nil] at hk
        exact absurd hk (by decide)
      · simp [hfn, hk, Rendered.isCodeBlock, Rendered.codeLang, Rendered.codeBody]
    · simp [hk, Rendered.isCodeBlock, Rendered.codeLang, Rendered.codeBody]
  · intro hcb
    simp only [renderNodePlain, hcb]
    split_ifs <;> simp_all [Rendered.isCodeBlock]

/-- Witness for the code-block theorem: the concrete monospace text
starting with the line python yields a code block tagged python whose
body is the remaining text. -/
theorem renderNode_codeBlock_witness :
    (renderNode ctx0 false nodePy).isCodeBlock = true ∧
    (renderNode ctx0 false nodePy).codeLang = some (String.toList "python") ∧
    (renderNode ctx0 false nodePy).codeBody = some (String.toList "print(1)") := by
  have h := (renderNode_codeBlock ctx0 false nodePy (by decide)).1 (by decide)
  exact ⟨h.1, h.2.1.trans (by decide), h.2.2.trans (by decide)⟩

/-- Counterexample to C6 as stated: a monospace node whose text contains
a line break, rendered in the full timeline, still emits no code block
when it is a spoiler with children, because the spoiler branch is tested
first. -/
theorem renderNode_codeBlock_refuted :
    nodeSpoilMono.isMonospace = true ∧
    nodeSpoilMono.text.contains '\n' = true ∧
    ctx0.renderLocation = RenderLocation.timeline ∧
    (renderNode ctx0 false nodeSpoilMono).isCodeBlock = false := by
  refine ⟨by decide, by decide, by decide, ?_⟩
  exact spoilerShape_not_codeBlock _
    (renderNode_spoilerBranch ctx0 false nodeSpoilMono (by decide))

/-- C7 amended: the dispatcher renders a node as a hyperlink exactly when
its url is present and non-empty, the url passes the scheme allow-list,
the deceptive-link heuristic reports it as not sneaky, and the node is
taken by neither the spoiler branch nor the code-block branch (both are
tested first and win). -/
theorem renderNode_link_iff (ctx : RenderCtx) (inv : Bool)
    (node : DisplayNode) :
    (renderNode ctx inv node).isLink =
      (!node.takesSpoilerBranch && !takesCodeBlockBranch ctx node &&
        nodeUrlOk ctx node) := by
  by_cases hsp : node.takesSpoilerBranch = true
  · have h := renderNode_spoilerBranch ctx inv node hsp
    simp [spoilerShape_not_link _ h, hsp]
  · have hf : node.takesSpoilerBranch = false := by simpa using hsp
    rw [renderNode_not_spoilerBranch ctx inv node hf]
    simp only [renderNodePlain, hf, Bool.not_false, Bool.true_and]
    by_cases hcb : takesCodeBlockBranch ctx node = true
    · simp only [hcb, if_true, Bool.not_true, Bool.false_and]
      split_ifs <;> simp [Rendered.isLink]
    · have hcb' : takesCodeBlockBranch ctx node = false := by simpa using hcb
      simp only [hcb', if_false, Bool.not_false, Bool.true_and]
      by_cases hurl : nodeUrlOk ctx node = true <;>
        simp_all [Rendered.isLink]

/-- Counterexample to C7 as stated: a node whose url is present, passes
the allow-list and is not sneaky is still not rendered as a hyperlink
when the code-block branch applies. -/
theorem renderNode_link_iff_refuted :
    nodeUrlOk ctx0 nodeMonoUrl = true ∧
    (renderNode ctx0 false nodeMonoUrl).isLink = false := by
  constructor
  · decide
  · rw [renderNode_not_spoilerBranch ctx0 false nodeMonoUrl (by decide)]
    decide

/-- C10: a node flagged isSpoiler whose spoilerChildren is absent or
empty is not rendered as a spoiler shape, and its rendering does not
depend on the reveal-state map at all: the node falls through to
ordinary rendering and its content stays visible. -/
theorem renderNode_emptySpoiler_visible (loc : RenderLocation) (dis : Bool)
    (rev rev2 : Nat → Bool) (allow sneaky : List Char → Bool) (inv : Bool)
    (node : DisplayNode) (hsp : node.isSpoiler = true)
    (hch : node.spoilerChildren = none ∨ node.spoilerChildren = some []) :
    (renderNode (RenderCtx.mk loc dis rev allow sneaky) inv node).isSpoilerShape =
      false ∧
    renderNode (RenderCtx.mk loc dis rev allow sneaky) inv node =
      renderNode (RenderCtx.mk loc dis rev2 allow sneaky) inv node := by
  have h : node.takesSpoilerBranch = false := by
    rcases hch with h | h <;>
      simp [DisplayNode.takesSpoilerBranch, DisplayNode.childrenOrNone, h]
  rw [renderNode_not_spoilerBranch _ _ _ h, renderNode_not_spoilerBranch _ _ _ h]
  exact ⟨renderNodePlain_not_spoilerShape _ _ _, rfl⟩

/-- Witness for the empty-spoiler theorem: the concrete childless spoiler
node renders identically whether nothing or everything is revealed, and
not as a spoiler shape. -/
theorem renderNode_emptySpoiler_visible_witness :
    (renderNode ctx0 false nodeEmptySp).isSpoilerShape = false ∧
    renderNode ctx0 false nodeEmptySp = renderNode ctxRevealAll false nodeEmptySp :=
  renderNode_emptySpoiler_visible RenderLocation.timeline false
    (fun _ => false) (fun _ => true) (fun _ => true) (fun _ => false) false
    nodeEmptySp (by decide) (Or.inl rfl)

/-- Two tilings of adjacent windows concatenate to a tiling. -/
theorem TilesP_append (A B : List DisplayNode) (lo mid hi : Nat)
    (hA : TilesP A lo mid) (hB : TilesP B mid hi) : TilesP (A ++ B) lo hi := by
  induction A generalizing lo with
  | nil =>
    have h : lo = mid := hA
    subst h
    simpa using hB
  | cons n rest ih =>
    obtain ⟨h1, h2, h3⟩ := hA
    exact ⟨h1, h2, ih _ h3⟩

/-- The clipped start stays inside the window. -/
theorem spanLo_bounds (lo hi : Nat) (nr : BodyRange) (h : lo ≤ hi) :
    lo ≤ spanLo lo hi nr ∧ spanLo lo hi nr ≤ hi := by
  unfold spanLo
  omega

/-- The clipped end stays between the clipped start and the window end. -/
theorem spanHi_bounds (lo hi : Nat) (nr : BodyRange) (h : lo ≤ hi) :
    spanLo lo hi nr ≤ spanHi lo hi nr ∧ spanHi lo hi nr ≤ hi := by
  unfold spanHi spanLo
  omega

/-- The collapse worker tiles its window exactly, for every forest,
every window and every inherited state: gaps are filled, nodes are
clipped, and empty clips are skipped. -/
theorem collapseSpan_tiles (text : List Char) (f : List RangeNode)
    (lo hi : Nat) (ctx : InheritCtx) (h : lo ≤ hi) :
    TilesP (collapseSpan text f lo hi ctx) lo hi := by
  induction f, lo, hi, ctx using collapseSpan.induct text with
  | case1 lo hi ctx hlt =>
    simp only [collapseSpan, if_pos hlt, TilesP, plainNode, DisplayNode.start,
      DisplayNode.length]
    exact ⟨trivial, by omega, by omega⟩
  | case2 lo hi ctx hlt =>
    simp only [collapseSpan, if_neg hlt, TilesP]
    omega
  | case3 nr nch rest lo hi ctx he ih =>
    simp only [collapseSpan, if_pos he]
    exact ih h
  | case4 nr nch rest lo hi ctx he ihch ihst ihurl ihrest =>
    obtain ⟨ha1, ha2⟩ := spanLo_bounds lo hi nr h
    obtain ⟨he1, he2⟩ := spanHi_bounds lo hi nr h
    simp only [collapseSpan, if_neg he]
    refine TilesP_append _ _ lo (spanHi lo hi nr) hi ?_ (ihrest (by omega))
    refine TilesP_append _ _ lo (spanLo lo hi nr) (spanHi lo hi nr) ?_ ?_
    · by_cases hg : lo < spanLo lo hi nr
      · simp only [if_pos hg, TilesP, plainNode, DisplayNode.start,
          DisplayNode.length]
        exact ⟨trivial, by omega, by omega⟩
      · simp only [if_neg hg, TilesP]
        omega
    · rcases hp : nr.payload with st | ⟨cid, name⟩ | u
      · cases st with
        | spoiler =>
          simp only [hp, TilesP, DisplayNode.start, DisplayNode.length]
          exact ⟨trivial, by omega, by omega⟩
        | bold =>
          simpa only [hp] using ihst FmtStyle.bold (by omega)
        | italic =>
          simpa only [hp] using ihst FmtStyle.italic (by omega)
        | strikethrough =>
          simpa only [hp] using ihst FmtStyle.strikethrough (by omega)
        | monospace =>
          simpa only [hp] using ihst FmtStyle.monospace (by omega)
      · simp only [hp, TilesP, DisplayNode.start, DisplayNode.length]
        exact ⟨trivial, by omega, by omega⟩
      · simpa only [hp] using ihurl u (by omega)

/-- Start of a regrouped spoiler node. -/
theorem spoilerGroupOf_start (n : DisplayNode) :
    (spoilerGroupOf n).start = n.start := rfl

/-- Length of a regrouped spoiler node. -/
theorem spoilerGroupOf_length (n : DisplayNode) :
    (spoilerGroupOf n).length = n.length := rfl

/-- Start of a merged spoiler group. -/
theorem mergeSpoilerGroups_start (n m : DisplayNode) :
    (mergeSpoilerGroups n m).start = n.start := rfl

/-- Length of a merged spoiler group. -/
theorem mergeSpoilerGroups_length (n m : DisplayNode) :
    (mergeSpoilerGroups n m).length = n.length + m.length := rfl

/-- The spoiler merger preserves tiling: merged runs cover exactly the
union of their members' spans and everything else passes through. -/
theorem groupContiguousSpoilers_tiles (l : List DisplayNode) :
    ∀ lo hi : Nat, TilesP l lo hi → TilesP (groupContiguousSpoilers l) lo hi := by
  induction l with
  | nil => intro lo hi h; exact h
  | cons n rest ih =>
    intro lo hi h
    obtain ⟨h1, h2, h3⟩ := h
    have ihr := ih _ _ h3
    simp only [groupContiguousSpoilers]
    by_cases hsp : n.isSpoiler = true
    · simp only [hsp, if_true]
      cases hg : groupContiguousSpoilers rest with
      | nil =>
        rw [hg] at ihr
        have hend : lo + n.length = hi := ihr
        refine ⟨?_, ?_, ?_⟩
        · rw [spoilerGroupOf_start]; exact h1
        · rw [spoilerGroupOf_length]; exact h2
        · rw [spoilerGroupOf_length]
          show lo + n.length = hi
          omega
      | cons m ms =>
        rw [hg] at ihr
        obtain ⟨g1, g2, g3⟩ := ihr
        by_cases hm : (m.isSpoiler && (n.start + n.length == m.start)) = true
        · simp only [hm, if_true]
          refine ⟨?_, ?_, ?_⟩
          · rw [mergeSpoilerGroups_start, spoilerGroupOf_start]; exact h1
          · rw [mergeSpoilerGroups_length, spoilerGroupOf_length]
            omega
          · rw [mergeSpoilerGroups_length, spoilerGroupOf_length]
            have hassoc : lo + (n.length + m.length) = lo + n.length + m.length := by
              omega
            rw [hassoc]
            exact g3
        · simp only [hm, if_false]
          refine ⟨?_, ?_, ?_⟩
          · rw [spoilerGroupOf_start]; exact h1
          · rw [spoilerGroupOf_length]; exact h2
          · rw [spoilerGroupOf_length]
            exact ⟨g1, g2, g3⟩
    · have hsp' : n.isSpoiler = false := by simpa using hsp
      simp only [hsp', if_false]
      exact ⟨h1, h2, ihr⟩

/-- C1 amended: for every input, the node sequence produced by the whole
pipeline tiles the display string exactly: spans are contiguous,
non-overlapping, cover 0 to the length of messageText with no zero-length
nodes, and the sequence is empty only when messageText is empty.  This
coincides with the claimed window 0 to textLength exactly when textLength
equals the display string's length, in other words when the display
string carries no extra suffix. -/
theorem messageTextFinalNodes_tiling (messageText : List Char)
    (origMatches : List LinkMatch) (bodyRanges : List BodyRange)
    (textLength : Nat) (disableLinks : Bool) :
    TilesP (messageTextFinalNodes messageText origMatches bodyRanges textLength
      disableLinks) 0 messageText.length := by
  unfold messageTextFinalNodes collapseRangeTree
  exact groupContiguousSpoilers_tiles _ _ _
    (collapseSpan_tiles messageText _ 0 messageText.length InheritCtx.root
      (Nat.zero_le _))

/-- Counterexample to C1 as stated: with a three-character display string
and textLength 2 (a truncation suffix), the pipeline's nodes cover the
window 0 to 3, not 0 to textLength: they do not tile 0 to 2. -/
theorem messageTextFinalNodes_not_textLength_tiling :
    ¬ TilesP (messageTextFinalNodes ['h', 'i', '.'] [] [] 2 true) 0 2 := by
  have heval : messageTextFinalNodes ['h', 'i', '.'] [] [] 2 true =
      [plainNode ['h', 'i', '.'] 0 3 InheritCtx.root] := by
    simp [messageTextFinalNodes, sortMentionsLast, buildRangeTree,
      collapseRangeTree, collapseSpan, groupContiguousSpoilers, plainNode,
      DisplayNode.isSpoiler]
  rw [heval]
  intro hcontra
  obtain ⟨hc1, hc2, hc3⟩ := hcontra
  have : (plainNode ['h', 'i', '.'] 0 3 InheritCtx.root).length = 3 := rfl
  rw [this] at hc3
  have hc4 : (0 : Nat) + 3 = 2 := hc3
  omega
